import Mathlib

/-!
Verification development for the sentris_rag core pipeline:
the token chunker (rag/processor.py), the learning-path module packer
(educational/learning_path.py) and the adaptive quiz generator
(educational/quiz.py), shallowly embedded in Lean.
-/

namespace SentrisRag

/-! ## Python list slicing

`pyClamp` and `pySlice` model Python's `l[a:b]` slicing for integer
indices, including the negative-index wraparound: an index `i < 0`
denotes `len(l) + i` clamped below at `0`, and an index `i >= 0` is
clamped above at `len(l)`. -/

def pyClamp (n : ℕ) (i : ℤ) : ℕ :=
  if i < 0 then ((n : ℤ) + i).toNat else min i.toNat n

def pySlice {α : Type} (l : List α) (a b : ℤ) : List α :=
  (l.drop (pyClamp l.length a)).take (pyClamp l.length b - pyClamp l.length a)

/-- The plain mathematical slice `[a, b)` of a list: the elements whose
index lies in `[a, b) ∩ [0, length)`.  This is the reading of the slice
notation used by the specification; it agrees with `pySlice` for
nonnegative bounds but not for negative ones. -/
def idxSlice {α : Type} (l : List α) (a b : ℤ) : List α :=
  (l.drop a.toNat).take (b - max a 0).toNat

/-! ## Character classes and the sentence-boundary trims

These model `_chunk_text`'s regex post-processing on a decoded chunk:
`re.search(r"[.!?]\s+\w", chunk)` for the leading trim, and
`re.search(r"[.!?]\s+\w[^.!?]*$", chunk)` for the trailing trim, plus
Python's `str.strip()`.  Character classes are modelled over ASCII. -/

def isTermCh (c : Char) : Bool := c = '.' || c = '!' || c = '?'

def isSpaceCh (c : Char) : Bool :=
  c = ' ' || c = '\t' || c = '\n' || c = '\r' || c = Char.ofNat 11 || c = Char.ofNat 12

def isWordCh (c : Char) : Bool := c.isAlpha || c.isDigit || c = '_'

/-- After a sentence terminator: skip the (nonempty, greedy) whitespace
run; the match succeeds if the first non-whitespace character is a word
character, returning its offset. -/
def afterSpaces : List Char → ℕ → Option ℕ
  | [], _ => none
  | c :: cs, k =>
    if isSpaceCh c then afterSpaces cs (k + 1)
    else if isWordCh c then some k else none

/-- Try to match `[.!?]\s+\w` at the head of the suffix; on success
return the offset (within the suffix) of the matched word character,
i.e. `match.end() - 1`. -/
def matchAt : List Char → Option ℕ
  | a :: b :: rest =>
    if isTermCh a && isSpaceCh b then afterSpaces (b :: rest) 1 else none
  | _ => none

/-- Leftmost match of `[.!?]\s+\w`: the absolute index of the word
character of the first match, as `re.search` computes it. -/
def searchBoundary : List Char → Option ℕ
  | [] => none
  | a :: rest =>
    match matchAt (a :: rest) with
    | some j => some j
    | none => (searchBoundary rest).map (· + 1)

/-- `chunk = chunk[match.end() - 1:]` after the leading-boundary search,
or `chunk` unchanged when there is no match. -/
def trimLeading (s : List Char) : List Char :=
  match searchBoundary s with
  | some j => s.drop j
  | none => s

/-- Continuation of a `[.!?]\s+\w[^.!?]*$` match after the terminator:
a nonempty whitespace run, then a word character, then no further
sentence terminator up to the end of the string. -/
def trailSpaces : List Char → Bool
  | [] => false
  | c :: cs =>
    if isSpaceCh c then trailSpaces cs
    else isWordCh c && cs.all (fun x => !(isTermCh x))

def trailMatchAt : List Char → Bool
  | a :: b :: rest => isTermCh a && isSpaceCh b && trailSpaces (b :: rest)
  | _ => false

def hasTrailBoundary : List Char → Bool
  | [] => false
  | a :: rest => trailMatchAt (a :: rest) || hasTrailBoundary rest

/-- When `[.!?]\s+\w[^.!?]*$` matches, the match extends to the end of
the string, so `chunk[: match.end() - 1]` drops exactly the final
character. -/
def trimTrailing (s : List Char) : List Char :=
  if hasTrailBoundary s then s.take (s.length - 1) else s

/-- Python `str.strip()`. -/
def pyStrip (s : List Char) : List Char :=
  ((s.dropWhile isSpaceCh).reverse.dropWhile isSpaceCh).reverse

/-! ## The chunker (`DocumentProcessor._chunk_text`) -/

structure ChunkConfig where
  chunkSize : ℕ
  chunkOverlap : ℕ
  maxChunks : ℕ
deriving DecidableEq

/-- `token_size = self.chunk_size * 4`: the loop's actual token budget
per slice (the source multiplies the configured chunk size by an
approximate chars-per-token factor and then uses it as a token count).
This is the quantity the specification calls `chunk_size_tokens`. -/
def tokenSize (cfg : ChunkConfig) : ℕ := cfg.chunkSize * 4

/-- `token_overlap = self.chunk_overlap * 4`, the specification's
`overlap_tokens`. -/
def tokenOverlap (cfg : ChunkConfig) : ℕ := cfg.chunkOverlap * 4

/-- The boundary-trim and strip pipeline applied to a decoded chunk:
leading trim when `start > 0`, trailing trim when `end < len(tokens)`,
then `strip()`. -/
def finishChunk (start e : ℤ) (n : ℕ) (chunk : List Char) : List Char :=
  let c1 := if 0 < start then trimLeading chunk else chunk
  let c2 := if e < (n : ℤ) then trimTrailing c1 else c1
  pyStrip c2

/-- One loop iteration's emitted chunk: decode `tokens[start:end]`
(Python slicing) and post-process.  `decode` abstracts the external
tiktoken decoder. -/
def emitChunk (decode : List ℕ → List Char) (cfg : ChunkConfig) (tokens : List ℕ)
    (start : ℤ) : List Char :=
  finishChunk start (start + (tokenSize cfg : ℤ)) tokens.length
    (decode (pySlice tokens start (start + (tokenSize cfg : ℤ))))

/-- The same step, but reading the slice `[start, start + token_size)`
as the specification's mathematical slice of the token sequence. -/
def emitChunkSpec (decode : List ℕ → List Char) (cfg : ChunkConfig) (tokens : List ℕ)
    (start : ℤ) : List Char :=
  finishChunk start (start + (tokenSize cfg : ℤ)) tokens.length
    (decode (idxSlice tokens start (start + (tokenSize cfg : ℤ))))

/-- The chunking loop, instrumented with the cursor value at each
emission.  `remaining` is the number of further chunks the
`len(chunks) >= max_chunks` break still allows after the current one,
so the loop is entered with `remaining = max_chunks - 1`: the source
appends a chunk first and only then tests the cap, hence one chunk is
always emitted when the cursor is in range, even for `max_chunks = 0`. -/
def chunkFrom (decode : List ℕ → List Char) (cfg : ChunkConfig) (tokens : List ℕ) :
    ℕ → ℤ → List (ℤ × List Char)
  | 0, start =>
    if start < (tokens.length : ℤ) then [(start, emitChunk decode cfg tokens start)] else []
  | r + 1, start =>
    if start < (tokens.length : ℤ) then
      (start, emitChunk decode cfg tokens start) ::
        chunkFrom decode cfg tokens r (start + (tokenSize cfg : ℤ) - (tokenOverlap cfg : ℤ))
    else []

/-- `_chunk_text`, keeping the cursor of each emitted chunk. -/
def chunkPairs (decode : List ℕ → List Char) (cfg : ChunkConfig) (tokens : List ℕ) :
    List (ℤ × List Char) :=
  chunkFrom decode cfg tokens (cfg.maxChunks - 1) 0

/-- The chunk list returned by `_chunk_text`. -/
def chunkText (decode : List ℕ → List Char) (cfg : ChunkConfig) (tokens : List ℕ) :
    List (List Char) :=
  (chunkPairs decode cfg tokens).map (·.2)

/-! ## The learning-path module packer (`LearningPathGenerator`)

Durations are modelled in `ℚ`.  The four per-style durations
`30 * 1.2 = 36.0`, `30 * 1.1 = 33.0`, `30 * 1.0 = 30.0` and
`30 * 1.3 = 39.0` are all exact in IEEE double arithmetic, so the
rational model agrees with the source's float arithmetic. -/

/-- A retrieved content item as seen by the packer: `metadata.difficulty`
is `none` when the metadata has no `difficulty` key. -/
structure ContentItem where
  text : String
  difficulty : Option String
  learningGoal : String
  prerequisites : List String
  resources : List String
deriving DecidableEq

def difficultyLevels : List String :=
  ["beginner", "intermediate", "advanced", "expert"]

/-- `item["metadata"].get("difficulty", "intermediate")`. -/
def itemLevel (it : ContentItem) : String := it.difficulty.getD "intermediate"

/-- The bucketing loop `content_by_level[level].append(item)` succeeds
exactly when every item's (defaulted) difficulty is a key of the dict,
i.e. one of the four canonical levels; otherwise it raises `KeyError`. -/
def bucketOk (content : List ContentItem) : Bool :=
  content.all (fun it => difficultyLevels.contains (itemLevel it))

/-- The bucket of a level: the items whose defaulted difficulty equals
it, in input order. -/
def bucket (content : List ContentItem) (level : String) : List ContentItem :=
  content.filter (fun it => itemLevel it = level)

structure Activity where
  atype : String
  content : String
  duration : ℚ
  learningGoal : String
  prerequisites : List String
  resources : List String
deriving DecidableEq

/-- `base_duration(30)` scaled by the learning-style multiplier
(`visual=1.2, auditory=1.1, reading=1.0`, anything else is the
kinesthetic branch `1.3`). -/
def styleDuration (style : String) : ℚ :=
  if style = "visual" then 36
  else if style = "auditory" then 33
  else if style = "reading" then 30
  else 39

def styleActivityType (style : String) : String :=
  if style = "visual" then "video_lesson"
  else if style = "auditory" then "audio_lecture"
  else if style = "reading" then "text_material"
  else "interactive_exercise"

/-- `LearningPathGenerator._create_activity`. -/
def createActivity (it : ContentItem) (style : String) : Activity :=
  ⟨styleActivityType style, it.text, styleDuration style, it.learningGoal,
    it.prerequisites, it.resources⟩

/-- The duration budget: `none` models `float("inf")` (no bound). -/
def overBudget (b : Option ℚ) (x : ℚ) : Bool :=
  match b with
  | none => false
  | some m => decide (m < x)

def atBudget (b : Option ℚ) (x : ℚ) : Bool :=
  match b with
  | none => false
  | some m => decide (m ≤ x)

/-- The inner activity loop of `_structure_path`: append one activity
per content item while the running path total stays within budget;
`break` (dropping the item and the rest of the bucket) the moment the
next activity would push the total over.  Returns the activities added
and the updated running total. -/
def addActivities (style : String) (b : Option ℚ) :
    List ContentItem → ℚ → List Activity × ℚ
  | [], cur => ([], cur)
  | it :: rest, cur =>
    let a := createActivity it style
    if overBudget b (cur + a.duration) then ([], cur)
    else
      let p := addActivities style b rest (cur + a.duration)
      (a :: p.1, p.2)

structure Module where
  title : String
  difficulty : String
  learningStyle : String
  activities : List Activity
  estimatedDuration : ℚ
deriving DecidableEq

/-- A module as `_structure_path` builds it: `estimated_duration` is
incremented together with `current_duration` for each appended activity,
i.e. it equals the sum of the module's activity durations. -/
def mkModule (course style level : String) (acts : List Activity) : Module :=
  ⟨level.capitalize ++ " " ++ course, level, style, acts,
    (acts.map (·.duration)).sum⟩

/-- The outer level loop of `_structure_path`, from the start level's
index on: skip empty buckets, build one module per non-empty bucket
(omitting it when no activity fits), and stop entirely once the running
total has reached the budget. -/
def processLevels (content : List ContentItem) (course style : String)
    (b : Option ℚ) : List String → ℚ → List Module × ℚ
  | [], cur => ([], cur)
  | level :: rest, cur =>
    let lc := bucket content level
    if lc.isEmpty then processLevels content course style b rest cur
    else
      let p := addActivities style b lc cur
      let mods := if p.1.isEmpty then ([] : List Module)
        else [mkModule course style level p.1]
      if atBudget b p.2 then (mods, p.2)
      else
        let q := processLevels content course style b rest p.2
        (mods ++ q.1, q.2)

structure LearningPath where
  modules : List Module
  totalDuration : ℚ
  difficultyProgression : List String
  learningGoals : List String
  userLevel : String
deriving DecidableEq

/-- `max_duration = max_duration_hours * 60 if max_duration_hours else
float("inf")`: by Python truthiness, both `None` and `0` give an
unbounded budget. -/
def mkBudget (hours : Option ℚ) : Option ℚ :=
  match hours with
  | none => none
  | some h => if h = 0 then none else some (h * 60)

/-- `LearningPathGenerator._structure_path`.  Returns `none` when the
source raises: `KeyError` from bucketing an unrecognized difficulty
string, or `ValueError` from `difficulty_levels.index` on an invalid
user level. -/
def structurePath (content : List ContentItem) (userLevel style course : String)
    (goals : List String) (hours : Option ℚ) : Option LearningPath :=
  if bucketOk content then
    if difficultyLevels.contains userLevel then
      let startIdx := difficultyLevels.indexOf userLevel
      let b := mkBudget hours
      let p := processLevels content course style b (difficultyLevels.drop startIdx) 0
      some ⟨p.1, p.2, p.1.map (·.difficulty), goals, userLevel⟩
    else none
  else none

def moduleSum (m : Module) : ℚ := (m.activities.map (·.duration)).sum

def pathSum (p : LearningPath) : ℚ := (p.modules.map moduleSum).sum

def levelIndex (s : String) : ℕ := difficultyLevels.indexOf s

/-! ## The adaptive quiz generator (`AdaptiveQuizGenerator`) -/

/-- A retrieved content item as the quiz generator reads it:
`metadata.topic` (accessed directly), `metadata.difficulty` (via
`.get` with default), and the `.get(..., "")`-defaulted `concept` and
`objective` fields. -/
structure QContent where
  topic : String
  difficulty : Option String
  concept : String
  objective : String
deriving DecidableEq

/-- `AdaptiveQuizGenerator._level_to_difficulty`. -/
def levelToDifficulty (level : ℚ) : String :=
  if level < 3/10 then "beginner"
  else if level < 6/10 then "intermediate"
  else if level < 8/10 then "advanced"
  else "expert"

/-- The anchor dict lookup `{beginner 0.2, intermediate 0.5,
advanced 0.7, expert 0.9}.get(diff, 0.5)`. -/
def difficultyToNumber (d : String) : ℚ :=
  if d = "beginner" then 2/10
  else if d = "intermediate" then 5/10
  else if d = "advanced" then 7/10
  else if d = "expert" then 9/10
  else 5/10

/-- The `min` key in `_select_content_by_difficulty`. -/
def contentKey (target : ℚ) (it : QContent) : ℚ :=
  |difficultyToNumber (it.difficulty.getD "intermediate") - target|

/-- Python's `min(content, key=...)` over a non-empty list: a left fold
that replaces the best element only on a strictly smaller key, so the
first element attaining the minimum is kept. -/
def foldMin (target : ℚ) (x : QContent) (xs : List QContent) : QContent :=
  xs.foldl (fun best y => if contentKey target y < contentKey target best then y else best) x

/-- `AdaptiveQuizGenerator._select_content_by_difficulty`: `none` models
the `ValueError` that `min` raises on an empty sequence. -/
def selectClosest (content : List QContent) (target : ℚ) : Option QContent :=
  match content with
  | [] => none
  | x :: xs => some (foldMin target x xs)

structure Question where
  qtype : String
  text : String
  difficulty : ℚ
  points : ℕ
  concept : String
  objective : String
deriving DecidableEq

def mkMultipleChoice (it : QContent) (lvl : ℚ) : Question :=
  ⟨"multiple_choice",
    "Based on the content about " ++ it.topic ++ ", what is the key concept?",
    lvl, 10, it.concept, it.objective⟩

def mkTrueFalse (it : QContent) (lvl : ℚ) : Question :=
  ⟨"true_false",
    "Is the following statement about " ++ it.topic ++ " correct?",
    lvl, 5, it.concept, it.objective⟩

def mkShortAnswer (it : QContent) (lvl : ℚ) : Question :=
  ⟨"short_answer",
    "Explain the concept of " ++ it.topic ++ " in your own words.",
    lvl, 15, it.concept, it.objective⟩

/-- One iteration of `_generate_questions`: branch on the selected type
(`multiple_choice`, `true_false`, and everything else falls into the
`short_answer` branch), each branch selecting the content item nearest
the user level. -/
def genQuestion (content : List QContent) (lvl : ℚ) (qt : String) : Option Question :=
  if qt = "multiple_choice" then (selectClosest content lvl).map (mkMultipleChoice · lvl)
  else if qt = "true_false" then (selectClosest content lvl).map (mkTrueFalse · lvl)
  else (selectClosest content lvl).map (mkShortAnswer · lvl)

/-- `AdaptiveQuizGenerator._generate_questions`, generating the
questions for loop indices `i, i+1, ..., i+n-1`.  `none` models the
exceptions of the source: `ZeroDivisionError` from `i % len([])` when
the type list is empty (`List.get?` is then always `none`), and the
`ValueError` from content selection on empty content. -/
def generateQuestions (content : List QContent) (qtypes : List String) (lvl : ℚ) :
    ℕ → ℕ → Option (List Question)
  | _, 0 => some []
  | i, n + 1 =>
    match qtypes.get? (i % qtypes.length) with
    | none => none
    | some qt =>
      match genQuestion content lvl qt with
      | none => none
      | some q =>
        match generateQuestions content qtypes lvl (i + 1) n with
        | none => none
        | some rest => some (q :: rest)

def defaultQuestionTypes : List String :=
  ["multiple_choice", "true_false", "short_answer"]

structure Quiz where
  topic : String
  difficultyLevel : ℚ
  questions : List Question
  totalQuestions : ℕ
  estimatedDuration : ℕ
deriving DecidableEq

/-- `AdaptiveQuizGenerator.generate_adaptive_quiz`, with the retrieved
content passed in (retrieval is an external collaborator): default the
question types when not provided, generate the questions, and assemble
the quiz structure. -/
def generateAdaptiveQuiz (content : List QContent) (topic : String) (lvl : ℚ)
    (n : ℕ) (qtypes : Option (List String)) : Option Quiz :=
  let qts := qtypes.getD defaultQuestionTypes
  (generateQuestions content qts lvl 0 n).map
    (fun qs => ⟨topic, lvl, qs, qs.length, qs.length * 2⟩)

/-- The question type the source actually emits for a requested type:
the requested one when it is `multiple_choice` or `true_false`, and
`short_answer` for anything else (the final `else` branch). -/
def emittedType (qt : String) : String :=
  if qt = "multiple_choice" then qt
  else if qt = "true_false" then qt
  else "short_answer"

/-! ## Lemmas about the chunker -/

theorem pySlice_eq_idxSlice {α : Type} (l : List α) (a b : ℤ)
    (ha : 0 ≤ a) (hb : 0 ≤ b) : pySlice l a b = idxSlice l a b := by
  unfold pySlice idxSlice pyClamp
  rw [if_neg (not_lt.mpr ha), if_neg (not_lt.mpr hb), max_eq_left ha]
  have htn : (b - a).toNat = b.toNat - a.toNat := by omega
  rw [htn]
  by_cases h : a.toNat ≤ l.length
  · rw [min_eq_left h, List.take_eq_take]
    have hd : (l.drop a.toNat).length = l.length - a.toNat := List.length_drop _ _
    rw [hd]
    omega
  · rw [min_eq_right (le_of_not_le h), List.drop_length,
      List.drop_eq_nil_of_le (by omega), List.take_nil, List.take_nil]

theorem emitChunk_eq_spec (decode : List ℕ → List Char) (cfg : ChunkConfig)
    (tokens : List ℕ) {s : ℤ} (hs : 0 ≤ s) :
    emitChunk decode cfg tokens s = emitChunkSpec decode cfg tokens s := by
  unfold emitChunk emitChunkSpec
  rw [pySlice_eq_idxSlice tokens s _ hs (by positivity)]

theorem chunkFrom_head (decode : List ℕ → List Char) (cfg : ChunkConfig)
    (tokens : List ℕ) (r : ℕ) (s : ℤ) :
    (chunkFrom decode cfg tokens r s).head? =
      if s < (tokens.length : ℤ) then some (s, emitChunk decode cfg tokens s)
      else none := by
  cases r <;> unfold chunkFrom <;> split <;> simp

theorem chunkFrom_chain (decode : List ℕ → List Char) (cfg : ChunkConfig)
    (tokens : List ℕ) : ∀ (r : ℕ) (s : ℤ),
    List.Chain' (fun p q => q.1 = p.1 + (tokenSize cfg : ℤ) - (tokenOverlap cfg : ℤ))
      (chunkFrom decode cfg tokens r s) := by
  intro r
  induction r with
  | zero => intro s; unfold chunkFrom; split <;> simp
  | succ n ih =>
    intro s
    unfold chunkFrom
    split
    · rw [List.chain'_cons']
      refine ⟨?_, ih _⟩
      intro y hy
      rw [chunkFrom_head] at hy
      split at hy
      · simp only [Option.mem_def, Option.some_inj] at hy
        rw [← hy]
      · simp at hy
    · simp

theorem chunkFrom_mem (decode : List ℕ → List Char) (cfg : ChunkConfig)
    (tokens : List ℕ) (hKL : tokenOverlap cfg ≤ tokenSize cfg) :
    ∀ (r : ℕ) (s : ℤ), 0 ≤ s → ∀ p ∈ chunkFrom decode cfg tokens r s,
      0 ≤ p.1 ∧ p.2 = emitChunkSpec decode cfg tokens p.1 := by
  intro r
  induction r with
  | zero =>
    intro s hs p hp
    unfold chunkFrom at hp
    split at hp
    · rcases List.mem_singleton.mp hp with rfl
      exact ⟨hs, emitChunk_eq_spec decode cfg tokens hs⟩
    · simp at hp
  | succ n ih =>
    intro s hs p hp
    unfold chunkFrom at hp
    split at hp
    · rcases List.mem_cons.mp hp with rfl | hmem
      · exact ⟨hs, emitChunk_eq_spec decode cfg tokens hs⟩
      · refine ih _ ?_ p hmem
        have : (tokenOverlap cfg : ℤ) ≤ (tokenSize cfg : ℤ) := by exact_mod_cast hKL
        omega
    · simp at hp

theorem chunkFrom_length (decode : List ℕ → List Char) (cfg : ChunkConfig)
    (tokens : List ℕ) : ∀ (r : ℕ) (s : ℤ),
    (chunkFrom decode cfg tokens r s).length ≤ r + 1 := by
  intro r
  induction r with
  | zero => intro s; unfold chunkFrom; split <;> simp
  | succ n ih =>
    intro s
    unfold chunkFrom
    split
    · simpa using Nat.succ_le_succ (ih _)
    · simp

/-! ## Claim C1 -/

/-- C1 as stated: every chunk is decoded from the (mathematical) token
slice `[start, start + chunk_size_tokens)` before boundary trimming, and
the cursor advances by exactly `chunk_size_tokens - overlap_tokens`,
for every input and configuration. -/
def C1Claim : Prop :=
  ∀ (decode : List ℕ → List Char) (cfg : ChunkConfig) (tokens : List ℕ),
    (∀ p ∈ chunkPairs decode cfg tokens, p.2 = emitChunkSpec decode cfg tokens p.1) ∧
    List.Chain' (fun p q => q.1 = p.1 + (tokenSize cfg : ℤ) - (tokenOverlap cfg : ℤ))
      (chunkPairs decode cfg tokens)

/-- An injective decoder rendering token `t` as the letter `'A' + t`. -/
def decodeAlpha : List ℕ → List Char := fun ts => ts.map (fun t => Char.ofNat (65 + t))

/-- A decoder ignoring its input, for counterexamples where the chunk
text is irrelevant. -/
def decodeNil : List ℕ → List Char := fun _ => []

/-- C1: counterexample.  With `chunk_size*4 = 12 < 16 = chunk_overlap*4`
the cursor reaches `-4`, where Python's negative-index slicing
(`tokens[-4:8]`, i.e. elements 6..7) differs from the claimed slice
`[-4, 8) ∩ [0, 10)` (elements 0..7): the second emitted chunk is "GH",
not the trimmed decode "ABCDEFGH" of the claimed slice. -/
theorem c1_counterexample : ¬ C1Claim := by
  intro h
  have h1 := (h decodeAlpha ⟨3, 4, 10⟩ (List.range 10)).1 (-4, ['G', 'H']) (by decide)
  exact absurd h1 (by decide)

/-- C1 amended: whenever `overlap_tokens ≤ chunk_size_tokens` (so the
cursor never becomes negative), every emitted chunk is the boundary
trim of the decode of the token slice `[start, start + chunk_size_tokens)`,
and after each chunk the cursor advances to `end - overlap_tokens`,
i.e. by exactly `chunk_size_tokens - overlap_tokens` tokens.  (Here
`chunk_size_tokens` is the loop's token budget `chunk_size * 4`.) -/
theorem c1_amended (decode : List ℕ → List Char) (cfg : ChunkConfig)
    (tokens : List ℕ) (h : cfg.chunkOverlap ≤ cfg.chunkSize) :
    (∀ p ∈ chunkPairs decode cfg tokens,
      0 ≤ p.1 ∧ p.2 = emitChunkSpec decode cfg tokens p.1) ∧
    List.Chain' (fun p q => q.1 = p.1 + (tokenSize cfg : ℤ) - (tokenOverlap cfg : ℤ))
      (chunkPairs decode cfg tokens) := by
  have hKL : tokenOverlap cfg ≤ tokenSize cfg := Nat.mul_le_mul_right 4 h
  exact ⟨chunkFrom_mem decode cfg tokens hKL _ 0 le_rfl, chunkFrom_chain decode cfg tokens _ 0⟩

/-- C1 witness: the amended theorem applied to a concrete run. -/
theorem c1_amended_witness :
    (0 : ℤ) ≤ 0 ∧ ([] : List Char) = emitChunkSpec decodeNil ⟨1, 0, 5⟩ (List.range 3) 0 :=
  (c1_amended decodeNil ⟨1, 0, 5⟩ (List.range 3) (by decide)).1 (0, []) (by decide)

/-! ## Claim C9 -/

/-- C9 as stated: a configuration with `overlap_tokens ≥
chunk_size_tokens` is treated as a configuration error and fails fast
(emitting no chunks), and the cursor always advances strictly
monotonically. -/
def C9Claim : Prop :=
  ∀ (decode : List ℕ → List Char) (cfg : ChunkConfig) (tokens : List ℕ),
    (cfg.chunkSize ≤ cfg.chunkOverlap → chunkPairs decode cfg tokens = []) ∧
    List.Chain' (fun p q => p.1 < q.1) (chunkPairs decode cfg tokens)

/-- C9: counterexample.  With `chunk_size = chunk_overlap = 1` and two
tokens the source performs no configuration check: it emits three
chunks, all with cursor `0`, so the call neither fails fast nor
advances the cursor strictly. -/
theorem c9_counterexample : ¬ C9Claim := by
  intro h
  have h1 := (h decodeNil ⟨1, 1, 3⟩ [0, 1]).1 (by decide)
  exact absurd h1 (by decide)

/-- C9 amended: the source has no configuration-error guard and the
cursor advance is the constant `chunk_size_tokens - overlap_tokens`
(hence not strictly monotonic when `overlap_tokens ≥
chunk_size_tokens`); nevertheless chunking never loops forever on any
input, because every iteration emits a chunk and the
`len(chunks) >= max_chunks` break caps the output at
`max(max_chunks, 1)` chunks. -/
theorem c9_amended (decode : List ℕ → List Char) (cfg : ChunkConfig)
    (tokens : List ℕ) :
    (chunkPairs decode cfg tokens).length ≤ max cfg.maxChunks 1 ∧
    List.Chain' (fun p q => q.1 = p.1 + (tokenSize cfg : ℤ) - (tokenOverlap cfg : ℤ))
      (chunkPairs decode cfg tokens) := by
  constructor
  · have hl := chunkFrom_length decode cfg tokens (cfg.maxChunks - 1) 0
    unfold chunkPairs
    omega
  · exact chunkFrom_chain decode cfg tokens _ 0

/-! ## Lemmas about the module packer -/

theorem addActivities_sum (style : String) (b : Option ℚ) :
    ∀ (items : List ContentItem) (cur : ℚ),
      (addActivities style b items cur).2 =
        cur + (((addActivities style b items cur).1.map (·.duration)).sum) := by
  intro items
  induction items with
  | nil => intro cur; simp [addActivities]
  | cons it rest ih =>
    intro cur
    unfold addActivities
    dsimp only
    split
    · simp
    · simp only [List.map_cons, List.sum_cons, ih (cur + (createActivity it style).duration)]
      ring

theorem addActivities_le (style : String) (m : ℚ) :
    ∀ (items : List ContentItem) (cur : ℚ), cur ≤ m →
      (addActivities style (some m) items cur).2 ≤ m := by
  intro items
  induction items with
  | nil => intro cur h; simpa [addActivities] using h
  | cons it rest ih =>
    intro cur h
    unfold addActivities
    dsimp only
    split
    · exact h
    · next hover =>
      refine ih _ ?_
      simp only [overBudget, decide_eq_true_eq] at hover
      linarith [not_lt.mp hover]

theorem processLevels_sum (content : List ContentItem) (course style : String)
    (b : Option ℚ) : ∀ (levels : List String) (cur : ℚ),
      (processLevels content course style b levels cur).2 =
        cur + (((processLevels content course style b levels cur).1.map
          (·.estimatedDuration)).sum) := by
  intro levels
  induction levels with
  | nil => intro cur; simp [processLevels]
  | cons level rest ih =>
    intro cur
    unfold processLevels
    dsimp only
    split
    · exact ih cur
    · have hadd := addActivities_sum style b (bucket content level) cur
      by_cases hemp : (addActivities style b (bucket content level) cur).1.isEmpty = true
      · rw [List.isEmpty_iff] at hemp
        simp [hemp] at hadd
        split
        · simp [hemp, hadd]
        · simp [hemp, ih, hadd]
      · split
        · simp [mkModule, hadd]
        · simp only [List.singleton_append, List.map_cons, List.sum_cons, ih, mkModule]
          rw [hadd]
          ring

theorem processLevels_le (content : List ContentItem) (course style : String)
    (m : ℚ) : ∀ (levels : List String) (cur : ℚ), cur ≤ m →
      (processLevels content course style (some m) levels cur).2 ≤ m := by
  intro levels
  induction levels with
  | nil => intro cur h; simpa [processLevels] using h
  | cons level rest ih =>
    intro cur h
    unfold processLevels
    dsimp only
    split
    · exact ih cur h
    · have hle := addActivities_le style m (bucket content level) cur h
      split
      · exact hle
      · exact ih _ hle

theorem processLevels_est (content : List ContentItem) (course style : String)
    (b : Option ℚ) : ∀ (levels : List String) (cur : ℚ),
      ∀ mod ∈ (processLevels content course style b levels cur).1,
        mod.estimatedDuration = (mod.activities.map (·.duration)).sum := by
  intro levels
  induction levels with
  | nil => intro cur mod hmod; simp [processLevels] at hmod
  | cons level rest ih =>
    intro cur mod hmod
    unfold processLevels at hmod
    dsimp only at hmod
    split at hmod
    · exact ih cur mod hmod
    · split at hmod
      · split at hmod
        · simp at hmod
        · rcases List.mem_singleton.mp hmod with rfl
          simp [mkModule]
      · simp only [List.mem_append] at hmod
        rcases hmod with hmod | hmod
        · split at hmod
          · simp at hmod
          · rcases List.mem_singleton.mp hmod with rfl
            simp [mkModule]
        · exact ih _ mod hmod

theorem processLevels_sublist (content : List ContentItem) (course style : String)
    (b : Option ℚ) : ∀ (levels : List String) (cur : ℚ),
      ((processLevels content course style b levels cur).1.map (·.difficulty)).Sublist
        levels := by
  intro levels
  induction levels with
  | nil => intro cur; simp [processLevels]
  | cons level rest ih =>
    intro cur
    unfold processLevels
    dsimp only
    split
    · exact (ih cur).cons level
    · split
      · split
        · simp
        · simp [mkModule]
      · split
        · simp only [List.nil_append]
          exact (ih _).cons level
        · simp only [List.singleton_append, List.map_cons, mkModule]
          exact (ih _).cons₂ level

/-! ## Claim C2 -/

/-- An example content item at the beginner level. -/
def exItem : ContentItem := ⟨"t", some "beginner", "g", [], []⟩

/-- An example content item with an unrecognized difficulty string. -/
def novItem : ContentItem := ⟨"t", some "novice", "g", [], []⟩

/-- C2 as stated: for every finite budget (a truthy `max_duration_hours
= h`, i.e. `maxDurationMinutes = h * 60`), the sum of activity durations
over all modules of the produced path is at most the budget. -/
def C2Claim : Prop :=
  ∀ (content : List ContentItem) (userLevel style course : String)
    (goals : List String) (h : ℚ) (path : LearningPath), h ≠ 0 →
    structurePath content userLevel style course goals (some h) = some path →
    pathSum path ≤ h * 60

/-- C2: counterexample.  With the finite negative budget `h = -1` hour
(`maxDurationMinutes = -60`) the packer drops everything and returns an
empty path, whose activity-duration sum `0` exceeds the budget. -/
theorem c2_counterexample : ¬ C2Claim := by
  intro hc
  have h0 : structurePath [exItem] "beginner" "reading" "math" [] (some (-1)) =
      some ⟨[], 0, [], [], "beginner"⟩ := by
    simp [structurePath, processLevels, addActivities, bucket, bucketOk, itemLevel,
      difficultyLevels, mkBudget, overBudget, atBudget, createActivity, styleDuration, exItem]
    norm_num
  have h1 := hc [exItem] "beginner" "reading" "math" [] (-1)
    ⟨[], 0, [], [], "beginner"⟩ (by norm_num) h0
  norm_num [pathSum] at h1

/-- C2 amended: for every finite *nonnegative* budget (hours `h > 0`,
budget `h * 60` minutes), the sum of activity durations over all modules
of the produced path is at most the budget.  (A negative budget yields
an empty path whose sum `0` still exceeds it.) -/
theorem c2_amended (content : List ContentItem) (userLevel style course : String)
    (goals : List String) (h : ℚ) (path : LearningPath)
    (hsp : structurePath content userLevel style course goals (some h) = some path)
    (hpos : 0 < h) : pathSum path ≤ h * 60 := by
  unfold structurePath at hsp
  dsimp only at hsp
  split at hsp
  · split at hsp
    · have hpath := Option.some.inj hsp
      subst hpath
      have hb : mkBudget (some h) = some (h * 60) := by simp [mkBudget, hpos.ne']
      have hest := processLevels_est content course style (mkBudget (some h))
        (difficultyLevels.drop (difficultyLevels.indexOf userLevel)) 0
      have hsum := processLevels_sum content course style (mkBudget (some h))
        (difficultyLevels.drop (difficultyLevels.indexOf userLevel)) 0
      have hle : (processLevels content course style (mkBudget (some h))
          (difficultyLevels.drop (difficultyLevels.indexOf userLevel)) 0).2 ≤ h * 60 := by
        rw [hb]
        exact processLevels_le content course style (h * 60) _ 0 (by positivity)
      have hmaps : (processLevels content course style (mkBudget (some h))
            (difficultyLevels.drop (difficultyLevels.indexOf userLevel)) 0).1.map moduleSum =
          (processLevels content course style (mkBudget (some h))
            (difficultyLevels.drop (difficultyLevels.indexOf userLevel)) 0).1.map
            (·.estimatedDuration) := by
        refine List.map_congr_left ?_
        intro m hm
        simp [moduleSum, hest m hm]
      show pathSum _ ≤ h * 60
      unfold pathSum
      dsimp only
      rw [hmaps]
      rw [zero_add] at hsum
      rw [← hsum]
      exact hle
    · simp at hsp
  · simp at hsp

/-- C2 amended, witness. -/
theorem c2_amended_witness : pathSum ⟨[], 0, [], [], "beginner"⟩ ≤ 1 * 60 :=
  c2_amended [] "beginner" "reading" "math" [] 1 ⟨[], 0, [], [], "beginner"⟩
    (by simp [structurePath, processLevels, bucket, bucketOk, difficultyLevels])
    (by norm_num)

/-! ## Claim C5 -/

theorem addActivities_stuck (style : String) (b : Option ℚ) (cur : ℚ)
    (hover : overBudget b (cur + styleDuration style) = true) :
    ∀ items, addActivities style b items cur = ([], cur) := by
  intro items
  cases items with
  | nil => rfl
  | cons it rest =>
    unfold addActivities
    dsimp only
    rw [show (createActivity it style).duration = styleDuration style from rfl,
      if_pos hover]

/-- C5: once adding one more activity (all activities of a path share
the same style-derived duration) would push the running total over the
finite budget, the packer drops that overflowing item, adds nothing
further to the current module, and adds no activity to any later module:
from any such state the remainder of the run leaves the path unchanged. -/
theorem c5_overflow_drops (content : List ContentItem) (course style : String)
    (m cur : ℚ) (levels : List String) (it : ContentItem) (items : List ContentItem)
    (hover : overBudget (some m) (cur + styleDuration style) = true) :
    addActivities style (some m) (it :: items) cur = ([], cur) ∧
    processLevels content course style (some m) levels cur = ([], cur) := by
  refine ⟨addActivities_stuck style (some m) cur hover (it :: items), ?_⟩
  induction levels with
  | nil => rfl
  | cons level rest ih =>
    unfold processLevels
    dsimp only
    split
    · exact ih
    · rw [addActivities_stuck style (some m) cur hover (bucket content level)]
      split
      · simp
      · simp [ih]

/-- C5 witness. -/
theorem c5_witness :
    addActivities "reading" (some 10) [exItem] 0 = ([], 0) ∧
    processLevels [] "math" "reading" (some 10) ["beginner"] 0 = ([], 0) :=
  c5_overflow_drops [] "math" "reading" 10 0 ["beginner"] exItem []
    (by simp [overBudget, styleDuration]; norm_num)

/-! ## Claim C7 -/

/-- C7 as stated: bucketing never fails, whatever the items' difficulty
values (given a valid user start level). -/
def C7Claim : Prop :=
  ∀ (content : List ContentItem) (userLevel style course : String)
    (goals : List String) (hours : Option ℚ),
    difficultyLevels.contains userLevel = true →
    (structurePath content userLevel style course goals hours).isSome = true

/-- C7: counterexample.  An item whose difficulty is the unrecognized
string "novice" makes `content_by_level[level]` raise `KeyError`, so the
packer fails instead of defaulting the item to `intermediate`. -/
theorem c7_counterexample : ¬ C7Claim := by
  intro h
  have h1 := h [novItem] "beginner" "reading" "math" [] none (by decide)
  have h2 : structurePath [novItem] "beginner" "reading" "math" [] none = none := by
    simp [structurePath, bucketOk, itemLevel, difficultyLevels, novItem]
  rw [h2] at h1
  simp at h1

/-- C7 amended: an item with *missing* difficulty defaults to the
`intermediate` bucket, and every item lands in the bucket of its
(defaulted) difficulty; but bucketing fails (`KeyError`) on any
difficulty string outside the four canonical levels — the packer
succeeds exactly when every item's defaulted difficulty is canonical
and the user level is valid. -/
theorem c7_amended (content : List ContentItem) (userLevel style course : String)
    (goals : List String) (hours : Option ℚ) :
    ((structurePath content userLevel style course goals hours).isSome = true ↔
      (bucketOk content = true ∧ difficultyLevels.contains userLevel = true)) ∧
    (∀ it ∈ content, it.difficulty = none →
      itemLevel it = "intermediate" ∧ it ∈ bucket content "intermediate") ∧
    (∀ it ∈ content, it ∈ bucket content (itemLevel it)) := by
  refine ⟨?_, ?_, ?_⟩
  · unfold structurePath
    by_cases h1 : bucketOk content = true
    · rw [if_pos h1]
      by_cases h2 : difficultyLevels.contains userLevel = true
      · rw [if_pos h2]
        exact iff_of_true (by simp) ⟨h1, h2⟩
      · rw [if_neg h2]
        exact iff_of_false (by simp) (fun hc => h2 hc.2)
    · rw [if_neg h1]
      exact iff_of_false (by simp) (fun hc => h1 hc.1)
  · intro it hmem hnone
    refine ⟨by simp [itemLevel, hnone], ?_⟩
    rw [bucket, List.mem_filter]
    exact ⟨hmem, by simp [itemLevel, hnone]⟩
  · intro it hmem
    rw [bucket, List.mem_filter]
    exact ⟨hmem, by simp⟩

/-- C7 amended, witness. -/
theorem c7_witness : (structurePath [exItem] "beginner" "reading" "math" [] none).isSome = true :=
  (c7_amended [exItem] "beginner" "reading" "math" [] none).1.mpr ⟨by decide, by decide⟩

/-! ## Claim C10 -/

theorem difficultyLevels_pairwise :
    difficultyLevels.Pairwise (fun a b => levelIndex a < levelIndex b) := by
  decide

theorem contains_cases (u : String) (h : difficultyLevels.contains u = true) :
    u = "beginner" ∨ u = "intermediate" ∨ u = "advanced" ∨ u = "expert" := by
  simpa [difficultyLevels] using h

theorem drop_indexOf_le (userLevel : String)
    (h : difficultyLevels.contains userLevel = true) :
    ∀ s ∈ difficultyLevels.drop (difficultyLevels.indexOf userLevel),
      difficultyLevels.indexOf userLevel ≤ difficultyLevels.indexOf s := by
  rcases contains_cases userLevel h with rfl | rfl | rfl | rfl <;> decide

/-- C10: for every produced learning path, `total_duration` is the sum
of the modules' `estimated_duration`s, each module's
`estimated_duration` is the sum of its activities' durations,
`difficulty_progression` is exactly the modules' difficulties in order,
those difficulties are strictly ascending in the enum order of the four
levels, and all of them are at or above the user's starting level. -/
theorem c10_path_invariants (content : List ContentItem)
    (userLevel style course : String) (goals : List String) (hours : Option ℚ)
    (path : LearningPath)
    (hsp : structurePath content userLevel style course goals hours = some path) :
    path.totalDuration = (path.modules.map (·.estimatedDuration)).sum ∧
    (∀ m ∈ path.modules, m.estimatedDuration = (m.activities.map (·.duration)).sum) ∧
    path.difficultyProgression = path.modules.map (·.difficulty) ∧
    (path.modules.map (·.difficulty)).Pairwise (fun a b => levelIndex a < levelIndex b) ∧
    (∀ m ∈ path.modules, levelIndex userLevel ≤ levelIndex m.difficulty) := by
  unfold structurePath at hsp
  dsimp only at hsp
  split at hsp
  · split at hsp
    · rename_i h1 h2
      have hpath := Option.some.inj hsp
      subst hpath
      have hsub := processLevels_sublist content course style (mkBudget hours)
        (difficultyLevels.drop (difficultyLevels.indexOf userLevel)) 0
      refine ⟨?_, ?_, rfl, ?_, ?_⟩
      · have hsum := processLevels_sum content course style (mkBudget hours)
          (difficultyLevels.drop (difficultyLevels.indexOf userLevel)) 0
        rw [zero_add] at hsum
        exact hsum
      · exact fun m hm => processLevels_est content course style (mkBudget hours)
          (difficultyLevels.drop (difficultyLevels.indexOf userLevel)) 0 m hm
      · have hpw : (difficultyLevels.drop
            (difficultyLevels.indexOf userLevel)).Pairwise
            (fun a b => levelIndex a < levelIndex b) :=
          (difficultyLevels_pairwise).sublist (List.drop_sublist _ _)
        exact hpw.sublist hsub
      · intro m hm
        have hmem : m.difficulty ∈
            difficultyLevels.drop (difficultyLevels.indexOf userLevel) :=
          hsub.subset (List.mem_map_of_mem _ hm)
        exact drop_indexOf_le userLevel h2 m.difficulty hmem
    · simp at hsp
  · simp at hsp

/-- C10 witness. -/
theorem c10_witness :
    (LearningPath.mk [] 0 [] [] "beginner").totalDuration =
      ((LearningPath.mk [] 0 [] [] "beginner").modules.map (·.estimatedDuration)).sum :=
  (c10_path_invariants [] "beginner" "reading" "math" [] none ⟨[], 0, [], [], "beginner"⟩
    (by simp [structurePath, processLevels, bucket, bucketOk, difficultyLevels])).1

/-! ## Claim C4 -/

/-- C4: on `[0,1]`, `levelToCategory` follows the fixed thresholds
(`< 0.3` beginner, `< 0.6` intermediate, `< 0.8` advanced, else
expert), is monotonic non-decreasing in the enum order, and maps the
boundary values `0.3`, `0.6`, `0.8` to the higher category. -/
theorem c4_level_to_category (a b : ℚ) (_ha0 : 0 ≤ a) (_ha1 : a ≤ 1)
    (_hb0 : 0 ≤ b) (_hb1 : b ≤ 1) :
    ((a < 3/10 → levelToDifficulty a = "beginner") ∧
      (3/10 ≤ a → a < 6/10 → levelToDifficulty a = "intermediate") ∧
      (6/10 ≤ a → a < 8/10 → levelToDifficulty a = "advanced") ∧
      (8/10 ≤ a → levelToDifficulty a = "expert")) ∧
    (a ≤ b → levelIndex (levelToDifficulty a) ≤ levelIndex (levelToDifficulty b)) ∧
    levelToDifficulty (3/10) = "intermediate" ∧
    levelToDifficulty (6/10) = "advanced" ∧
    levelToDifficulty (8/10) = "expert" := by
  refine ⟨⟨?_, ?_, ?_, ?_⟩, ?_, ?_, ?_, ?_⟩
  · intro h
    rw [levelToDifficulty, if_pos h]
  · intro h1 h2
    rw [levelToDifficulty, if_neg (by linarith), if_pos h2]
  · intro h1 h2
    rw [levelToDifficulty, if_neg (by linarith), if_neg (by linarith), if_pos h2]
  · intro h1
    rw [levelToDifficulty, if_neg (by linarith), if_neg (by linarith),
      if_neg (by linarith)]
  · intro hab
    unfold levelToDifficulty
    split_ifs <;> first | decide | (exfalso; linarith)
  · norm_num [levelToDifficulty]
  · norm_num [levelToDifficulty]
  · norm_num [levelToDifficulty]

/-- C4 witness. -/
theorem c4_witness : levelToDifficulty (3/10) = "intermediate" :=
  (c4_level_to_category 0 1 (by norm_num) (by norm_num) (by norm_num)
    (by norm_num)).2.2.1

/-! ## Claim C6 -/

theorem foldMin_spec (target : ℚ) : ∀ (xs : List QContent) (x : QContent),
    (∀ z ∈ x :: xs,
      contentKey target (foldMin target x xs) ≤ contentKey target z) ∧
    ∃ pre post, x :: xs = pre ++ foldMin target x xs :: post ∧
      ∀ z ∈ pre, contentKey target (foldMin target x xs) < contentKey target z := by
  intro xs
  induction xs with
  | nil =>
    intro x
    refine ⟨?_, [], [], rfl, by simp⟩
    intro z hz
    rcases List.mem_singleton.mp hz with rfl
    exact le_refl _
  | cons y ys ih =>
    intro x
    have hfold : foldMin target x (y :: ys) =
        foldMin target (if contentKey target y < contentKey target x then y else x) ys := rfl
    by_cases hxy : contentKey target y < contentKey target x
    · rw [hfold, if_pos hxy]
      obtain ⟨hmin, pre, post, hdec, hstrict⟩ := ih y
      constructor
      · intro z hz
        rcases List.mem_cons.mp hz with rfl | hz'
        · exact le_trans (hmin y (List.mem_cons_self y ys)) (le_of_lt hxy)
        · exact hmin z hz'
      · refine ⟨x :: pre, post, ?_, ?_⟩
        · rw [List.cons_append, ← hdec]
        · intro z hz
          rcases List.mem_cons.mp hz with rfl | hz'
          · exact lt_of_le_of_lt (hmin y (List.mem_cons_self y ys)) hxy
          · exact hstrict z hz'
    · rw [hfold, if_neg hxy]
      obtain ⟨hmin, pre, post, hdec, hstrict⟩ := ih x
      have hxle : contentKey target x ≤ contentKey target y := not_lt.mp hxy
      constructor
      · intro z hz
        rcases List.mem_cons.mp hz with rfl | hz'
        · exact hmin z (List.mem_cons_self z ys)
        · rcases List.mem_cons.mp hz' with rfl | hz''
          · exact le_trans (hmin x (List.mem_cons_self x ys)) hxle
          · exact hmin z (List.mem_cons.mpr (Or.inr hz''))
      · cases pre with
        | nil =>
          simp only [List.nil_append] at hdec
          injection hdec with h1 h2
          refine ⟨[], y :: ys, ?_, by simp⟩
          simp only [List.nil_append]
          rw [← h1]
        | cons p pre' =>
          rw [List.cons_append] at hdec
          injection hdec with h1 h2
          have hpx : contentKey target (foldMin target x ys) < contentKey target x := by
            have hp := hstrict p (List.mem_cons_self p pre')
            rwa [← h1] at hp
          refine ⟨x :: y :: pre', post, ?_, ?_⟩
          · rw [List.cons_append, List.cons_append, ← h2]
          · intro z hz
            rcases List.mem_cons.mp hz with rfl | hz'
            · exact hpx
            · rcases List.mem_cons.mp hz' with rfl | hz''
              · exact lt_of_lt_of_le hpx hxle
              · exact hstrict z (List.mem_cons_of_mem p hz'')

/-- C6: on a non-empty list, `selectClosest` returns an item whose key
`|anchor(difficulty) - target|` (anchors: beginner 0.2, intermediate
0.5, advanced 0.7, expert 0.9, default 0.5) is minimal, and it is the
*first* such item: every earlier item has a strictly larger key.  A
single-item list therefore always yields that item. -/
theorem c6_select_closest (content : List QContent) (target : ℚ) (r : QContent)
    (hsel : selectClosest content target = some r) :
    (∀ z ∈ content, contentKey target r ≤ contentKey target z) ∧
    (∃ pre post, content = pre ++ r :: post ∧
      ∀ z ∈ pre, contentKey target r < contentKey target z) ∧
    difficultyToNumber "beginner" = 2/10 ∧
    difficultyToNumber "intermediate" = 5/10 ∧
    difficultyToNumber "advanced" = 7/10 ∧
    difficultyToNumber "expert" = 9/10 := by
  cases content with
  | nil => simp [selectClosest] at hsel
  | cons x xs =>
    have hr : foldMin target x xs = r :=
      Option.some.inj (by simpa [selectClosest] using hsel)
    obtain ⟨hmin, pre, post, hdec, hstrict⟩ := foldMin_spec target xs x
    rw [hr] at hmin hdec hstrict
    exact ⟨hmin, ⟨pre, post, hdec, hstrict⟩, by simp [difficultyToNumber],
      by simp [difficultyToNumber], by simp [difficultyToNumber],
      by simp [difficultyToNumber]⟩

/-- An example quiz content item. -/
def qItemX : QContent := ⟨"t", some "expert", "c", "o"⟩

/-- C6 witness: the single-item case. -/
theorem c6_witness : contentKey 0 qItemX ≤ contentKey 0 qItemX :=
  (c6_select_closest [qItemX] 0 qItemX rfl).1 qItemX (List.mem_singleton.mpr rfl)

/-! ## Claim C8 -/

/-- C8: with an empty retrieved content set and a positive question
count, quiz generation fails (the `min` over the empty content raises,
modelled by `none`) and no quiz is returned; with an explicitly empty
question-type list the `i % 0` division fails first, also yielding no
quiz. -/
theorem c8_empty_content_fails (topic : String) (lvl : ℚ) (n : ℕ)
    (qtypes : Option (List String)) (hn : 0 < n) :
    generateAdaptiveQuiz [] topic lvl n qtypes = none := by
  unfold generateAdaptiveQuiz
  dsimp only
  cases n with
  | zero => exact absurd hn (lt_irrefl 0)
  | succ k =>
    suffices hgen : generateQuestions [] (qtypes.getD defaultQuestionTypes) lvl 0 (k + 1)
        = none by rw [hgen]; rfl
    unfold generateQuestions
    cases hq : (qtypes.getD defaultQuestionTypes).get?
        (0 % (qtypes.getD defaultQuestionTypes).length) with
    | none => simp [hq]
    | some qt => simp [hq, genQuestion, selectClosest]

/-- C8 witness. -/
theorem c8_witness : generateAdaptiveQuiz [] "x" 0 1 none = none :=
  c8_empty_content_fails "x" 0 1 none (by norm_num)

/-! ## Claim C3 -/

/-- C3 as stated: for non-empty content, positive question count and a
non-empty type list, generation succeeds with exactly `numQuestions`
questions whose emitted type at index `i` equals
`questionTypes[i mod len(questionTypes)]`. -/
def C3Claim : Prop :=
  ∀ (content : List QContent) (qtypes : List String) (lvl : ℚ) (n : ℕ)
    (qs : List Question), content ≠ [] → 0 < n → qtypes ≠ [] →
    generateQuestions content qtypes lvl 0 n = some qs →
    qs.length = n ∧ ∀ i, i < n → ∃ q qt, qs.get? i = some q ∧
      qtypes.get? (i % qtypes.length) = some qt ∧ q.qtype = qt

/-- An example quiz content item at the beginner level. -/
def qItemB : QContent := ⟨"t", some "beginner", "", ""⟩

/-- C3: counterexample.  Requesting the unrecognized type "essay" makes
the final `else` branch emit a `short_answer` question, so the emitted
type differs from `questionTypes[i mod len]`. -/
theorem c3_counterexample : ¬ C3Claim := by
  intro hc
  have h0 : generateQuestions [qItemB] ["essay"] 0 0 1 = some [mkShortAnswer qItemB 0] := rfl
  obtain ⟨hlen, hall⟩ := hc [qItemB] ["essay"] 0 1 [mkShortAnswer qItemB 0]
    (by simp) (by norm_num) (by simp) h0
  obtain ⟨q, qt, hq, hqt, hty⟩ := hall 0 (by norm_num)
  simp only [List.get?] at hq hqt
  rw [← Option.some.inj hq] at hty
  rw [← Option.some.inj hqt] at hty
  simp [mkShortAnswer] at hty

theorem generateQuestions_spec (content : List QContent) (qtypes : List String)
    (lvl : ℚ) (hc : content ≠ []) (hq : qtypes ≠ []) :
    ∀ (n i : ℕ), ∃ qs, generateQuestions content qtypes lvl i n = some qs ∧
      qs.length = n ∧ ∀ j, j < n → ∃ q qt, qs.get? j = some q ∧
        qtypes.get? ((i + j) % qtypes.length) = some qt ∧
        q.qtype = emittedType qt := by
  intro n
  induction n with
  | zero => exact fun i => ⟨[], rfl, rfl, fun j hj => absurd hj (by omega)⟩
  | succ k ih =>
    intro i
    have hlen : 0 < qtypes.length := List.length_pos.mpr hq
    cases hqtE : qtypes.get? (i % qtypes.length) with
    | none =>
      exact absurd (List.get?_eq_none.mp hqtE)
        (by push_neg; exact Nat.mod_lt _ hlen)
    | some qt =>
      obtain ⟨x, xs, rfl⟩ : ∃ x xs, content = x :: xs := by
        cases content with
        | nil => exact absurd rfl hc
        | cons x xs => exact ⟨x, xs, rfl⟩
      have hsel : selectClosest (x :: xs) lvl = some (foldMin lvl x xs) := rfl
      have hgenq : ∃ q, genQuestion (x :: xs) lvl qt = some q ∧
          q.qtype = emittedType qt := by
        unfold genQuestion emittedType
        split_ifs with h1 h2
        · exact ⟨mkMultipleChoice (foldMin lvl x xs) lvl, by rw [hsel]; rfl, by rw [h1]; rfl⟩
        · exact ⟨mkTrueFalse (foldMin lvl x xs) lvl, by rw [hsel]; rfl, by rw [h2]; rfl⟩
        · exact ⟨mkShortAnswer (foldMin lvl x xs) lvl, by rw [hsel]; rfl, rfl⟩
      obtain ⟨q, hgq, hqty⟩ := hgenq
      obtain ⟨rest, hrest, hrlen, hrall⟩ := ih (i + 1)
      refine ⟨q :: rest, ?_, by simp [hrlen], ?_⟩
      · simp only [generateQuestions, hqtE, hgq, hrest]
      · intro j hj
        cases j with
        | zero => exact ⟨q, qt, rfl, by simpa using hqtE, hqty⟩
        | succ j' =>
          obtain ⟨q2, qt2, hg2, ht2, he2⟩ := hrall j' (by omega)
          refine ⟨q2, qt2, by simpa using hg2, ?_, he2⟩
          have harith : i + (j' + 1) = (i + 1) + j' := by omega
          rw [harith]
          exact ht2

/-- C3 amended: for non-empty content and a non-empty type list,
generation always succeeds with exactly `numQuestions` questions; the
*requested* type cycles `questionTypes[i mod len(questionTypes)]`, and
the emitted question's type equals the requested one when it is
`multiple_choice` or `true_false`, and is `short_answer` for any other
requested type (the source's final `else` branch). -/
theorem c3_amended (content : List QContent) (qtypes : List String) (lvl : ℚ)
    (n : ℕ) (hc : content ≠ []) (hq : qtypes ≠ []) :
    ∃ qs, generateQuestions content qtypes lvl 0 n = some qs ∧ qs.length = n ∧
      ∀ j, j < n → ∃ q qt, qs.get? j = some q ∧
        qtypes.get? (j % qtypes.length) = some qt ∧ q.qtype = emittedType qt := by
  obtain ⟨qs, h1, h2, h3⟩ := generateQuestions_spec content qtypes lvl hc hq n 0
  refine ⟨qs, h1, h2, fun j hj => ?_⟩
  obtain ⟨q, qt, hg, ht, he⟩ := h3 j hj
  exact ⟨q, qt, hg, by simpa using ht, he⟩

/-- C3 amended, witness. -/
theorem c3_witness :
    ∃ qs, generateQuestions [qItemB] defaultQuestionTypes 0 0 2 = some qs ∧
      qs.length = 2 ∧ ∀ j, j < 2 → ∃ q qt, qs.get? j = some q ∧
        defaultQuestionTypes.get? (j % defaultQuestionTypes.length) = some qt ∧
        q.qtype = emittedType qt :=
  c3_amended [qItemB] defaultQuestionTypes 0 2 (by simp) (by simp [defaultQuestionTypes])

end SentrisRag
